import Mathlib

/-!
# Verification of the temporal rollup / aggregation core of `daily_report_generator.py`

This file is a shallow embedding, in Lean 4, of the algorithmic core of the
repository's `DailyReportGenerator` class (file `src/daily_report_generator.py`):

* the dimension-key builder (`process_raw_data`, lines 89-118),
* the per-(dimension, date) aggregator (`_aggregate_data_impl`, lines 120-175),
* the per-dimension temporal rollup builder (`create_table_data`,
  `is_month_complete`, `_add_month_total_row`, `_add_total_row`, lines 83-292),
* the supervisor-team rollup builder with ISO-week subtotals
  (`create_supervisor_report`, lines 425-597), and
* the day-over-day comparator (`format_change_rate` and the per-metric cell
  construction of `create_supervisors_daily_report`, lines 710-840).

Dates are modelled as already-parsed `(year, month, day)` triples (the code
parses them with `pd.to_datetime` and drops unparseable ones; rows carry an
`Option Date` whose `none` stands for an unparseable date).  Metric values are
modelled as exact rationals; the Python code works on floats, but every claim
treated here is about branch structure, bucketing and aggregation identities,
not float rounding.  Calendar arithmetic (`calendar.monthrange`, pandas
`isocalendar`) is reimplemented following the proleptic-Gregorian /
ISO-8601 algorithms that those libraries use (CPython's `datetime` module).
-/

namespace DataAlert

/-! ## Calendar arithmetic

`daysInMonth` embeds `calendar.monthrange(year, month)[1]`.  `toOrdinal`,
and the ISO-calendar functions follow CPython's `datetime` implementation
(`_ymd2ord`, `_isoweek1monday`, `isocalendar`), which is what
`pandas.Series.dt.isocalendar()` computes. -/

/-- A parsed calendar date (the model of a pandas `Timestamp` at day
granularity, i.e. of the `Date_dt` column). -/
structure Date where
  year : Nat
  month : Nat
  day : Nat
deriving DecidableEq, Repr

/-- Gregorian leap-year test, as in `calendar.isleap`. -/
def isLeap (y : Nat) : Bool := y % 4 == 0 && (y % 100 != 0 || y % 400 == 0)

/-- Number of days of month `m` of year `y`: `calendar.monthrange(y, m)[1]`. -/
def daysInMonth (y m : Nat) : Nat :=
  if m = 2 then (if isLeap y then 29 else 28)
  else if m = 4 ∨ m = 6 ∨ m = 9 ∨ m = 11 then 30
  else 31

/-- Days in the years `[1, y)` of the proleptic Gregorian calendar
(CPython `_days_before_year`). -/
def daysBeforeYear (y : Nat) : Nat :=
  (y - 1) * 365 + (y - 1) / 4 - (y - 1) / 100 + (y - 1) / 400

/-- Days in year `y` strictly before month `m` (CPython `_days_before_month`). -/
def daysBeforeMonth (y m : Nat) : Nat :=
  (match m with
   | 2 => 31 | 3 => 59 | 4 => 90 | 5 => 120 | 6 => 151 | 7 => 181
   | 8 => 212 | 9 => 243 | 10 => 273 | 11 => 304 | 12 => 334 | _ => 0)
  + (if 2 < m ∧ isLeap y then 1 else 0)

/-- Proleptic-Gregorian ordinal of a date, day 1 = 0001-01-01
(CPython `_ymd2ord`). -/
def toOrdinal (d : Date) : Nat :=
  daysBeforeYear d.year + daysBeforeMonth d.year d.month + d.day

/-- Ordinal of the Monday starting ISO week 1 of `year`
(CPython `_isoweek1monday`). -/
def isoweek1monday (year : Nat) : Int :=
  let firstday : Int := toOrdinal ⟨year, 1, 1⟩
  let firstweekday : Int := (firstday + 6) % 7
  let week1monday := firstday - firstweekday
  if 3 < firstweekday then week1monday + 7 else week1monday

/-- The `(ISO year, ISO week)` of a date, as computed by
`Series.dt.isocalendar()` (CPython `date.isocalendar`, day-of-week dropped). -/
def isoWeekKey (d : Date) : Int × Int :=
  let today : Int := toOrdinal d
  let year : Int := d.year
  let week := (today - isoweek1monday d.year).fdiv 7
  if week < 0 then
    let year := year - 1
    let week := (today - isoweek1monday (d.year - 1)).fdiv 7
    (year, week + 1)
  else if 52 ≤ week then
    if isoweek1monday (d.year + 1) ≤ today then (year + 1, 1)
    else (year, week + 1)
  else (year, week + 1)

/-- The `(year, month)` pair of a date: the `YearMonth` period column. -/
def ymOf (d : Date) : Nat × Nat := (d.year, d.month)

/-- A numeric key that orders valid dates chronologically (month `≤ 12 < 16`,
day `≤ 31 < 32`), used to model sorting on the `Date_dt` column. -/
def Date.key (d : Date) : Nat := (d.year * 16 + d.month) * 32 + d.day

/-! ## Decimal string formatting helpers -/

/-- Left-pad the decimal representation of `n` with zeros to width 2
(Python `f"{n:02d}"` for `n < 100`). -/
def pad2 (n : Nat) : String :=
  if n < 10 then "0" ++ toString n else toString n

/-- Left-pad the decimal representation of `n` with zeros to width 4
(Python `strftime` `%Y` for years below 10000). -/
def pad4 (n : Nat) : String :=
  if n < 10 then "000" ++ toString n
  else if n < 100 then "00" ++ toString n
  else if n < 1000 then "0" ++ toString n
  else toString n

/-- `Date_dt.strftime("%Y-%m-%d")`. -/
def dateLabel (d : Date) : String :=
  pad4 d.year ++ "-" ++ pad2 d.month ++ "-" ++ pad2 d.day

/-- `Date_dt.strftime("%m/%d")`, used in week-summary labels. -/
def mdLabel (d : Date) : String := pad2 d.month ++ "/" ++ pad2 d.day

/-- Round a rational to the nearest integer, ties to the even integer:
the rounding Python's `format` applies for `f"{x:,.0f}"` / `f"{x:.1f}"`. -/
def roundHalfEven (q : ℚ) : ℤ :=
  let f := ⌊q⌋
  let r := q - f
  if r < 1/2 then f
  else if 1/2 < r then f + 1
  else if 2 ∣ f then f else f + 1

/-- Insert thousands separators into a digit list given in reverse order. -/
def commaRev : List Char → List Char
  | a :: b :: c :: d :: rest => a :: b :: c :: Char.ofNat 44 :: commaRev (d :: rest)
  | l => l

/-- Decimal representation of an integer with thousands separators:
Python `f"{n:,d}"`. -/
def commaRepr (n : ℤ) : String :=
  let digits := (toString n.natAbs).toList
  let grouped := (commaRev digits.reverse).reverse
  (if n < 0 then "-" else "") ++ String.mk grouped

/-- One-decimal fixed-point formatting of a rational, sign included:
Python `f"{x:.1f}"` (for values exactly representable). -/
def fmtOneDecimal (q : ℚ) : String :=
  let n := roundHalfEven (10 * q)
  let a := n.natAbs
  (if q < 0 then "-" else "") ++ toString (a / 10) ++ "." ++ toString (a % 10)

/-- Embedding of `DailyReportGenerator.format_number` (lines 70-81): the cell
formatter used by every rollup row.  `value == int(value)` is the
integrality test `q.den = 1`; `f"{v:,.0f}"` is `commaRepr (roundHalfEven v)`. -/
def format_number (v : ℚ) : String :=
  if v = 0 then "0"
  else if 1000000 ≤ |v| then commaRepr (roundHalfEven v)
  else if 1000 ≤ |v| then commaRepr (roundHalfEven v)
  else if v.den = 1 then toString v.num
  else if 10 ≤ |v| then commaRepr (roundHalfEven v)
  else fmtOneDecimal v

/-! ## Generic list helpers

`firstDedup` models the order pandas `groupby(..., sort=False)` enumerates
groups in: distinct keys in order of first appearance.  `listMax` models
`Series.max()` on a nonempty column. -/

/-- Distinct elements of a list, keeping the first occurrence of each,
skipping the ones already `seen`. -/
def firstDedupAux {α : Type} [DecidableEq α] : List α → List α → List α
  | [], _ => []
  | a :: l, seen =>
    if a ∈ seen then firstDedupAux l seen else a :: firstDedupAux l (a :: seen)

/-- Distinct elements of a list, keeping the first occurrence of each
(the group-key order of `groupby(..., sort=False)`). -/
def firstDedup {α : Type} [DecidableEq α] (l : List α) : List α :=
  firstDedupAux l []

/-- `Series.max()` over a list of rationals (callers only use it on nonempty
lists; the empty case is given a junk value). -/
def listMax : List ℚ → ℚ
  | [] => 0
  | x :: xs => xs.foldl max x

/-! ## The aggregated-row data model shared by both rollup builders -/

/-- One aggregated row with a successfully parsed date: what remains of an
`AggregatedRow` after the `Date_dt`-notna filter.  `metrics` is the row's
column access (`row[col]`). -/
structure MRow where
  date : Date
  metrics : String → ℚ

/-- An aggregated row as handed to a rollup builder: `dateOpt` is the result
of `pd.to_datetime(row["Date"], errors="coerce")` (`none` = `NaT`). -/
structure ARow where
  dateOpt : Option Date
  metrics : String → ℚ

/-- A dimension's aggregated frame: its column list and rows. -/
structure Frame where
  cols : List String
  rows : List ARow

/-- `self.display_columns` (lines 62-68). -/
def display_columns : List String :=
  ["Date", "Reg", "FTD", "FTT", "Deposit ($)", "Withdraw ($)",
   "Net Deposit ($)", "DAU", "Spot Vol ($)", "Spot Fee ($)",
   "Futures Vol ($)", "Futures Fee ($)", "Total Vol ($)", "Total Fee ($)",
   "Profit Fee ($)", "Activate KOL", "EFTTC", "Bonus Consumption",
   "Bonus Transfer Into", "Futures PNL"]

/-- `month_data["Date_dt"].dt.day.nunique()`: the number of distinct
day-of-month values in a month group. -/
def uniqueDays (md : List MRow) : Nat :=
  ((md.map fun r => r.date.day).dedup).length

/-- Embedding of `DailyReportGenerator.is_month_complete` (lines 83-87):
a month group is complete iff its distinct day count reaches the calendar
day count of `(year, month)`. -/
def is_month_complete (md : List MRow) (y m : Nat) : Bool :=
  decide (daysInMonth y m ≤ uniqueDays md)

/-- The per-column reducer of `_add_month_total_row` / `_add_total_row`
(lines 273-292): `max` for the columns `DAU` and `Activate KOL`, `sum`
otherwise. -/
def colAgg (c : String) (rows : List MRow) : ℚ :=
  if c ∈ ["DAU", "Activate KOL"] then listMax (rows.map fun r => r.metrics c)
  else (rows.map fun r => r.metrics c).sum

/-- The bucket kind of a rollup row (the spec's `bucketKind`). -/
inductive BKind
  | daily
  | weekSummary
  | monthSummary
  | total
deriving DecidableEq, Repr

/-- One output row of a rollup builder.  `cells` is exactly the list of
formatted strings the Python code appends to `table_data`; `kind`,
`srcMonth` and `srcWeek` are ghost provenance tags (the spec's bucket tag
and the `(year, month)` / ISO-week group the row was emitted for), carried
for specification purposes only. -/
structure RollupRow where
  kind : BKind
  srcMonth : Option (Nat × Nat)
  srcWeek : Option (Int × Int)
  cells : List String
deriving DecidableEq, Repr

/-! ## The per-dimension rollup builder: `create_table_data` (lines 187-292) -/

/-- `f"{year}/{month:02d}"`: the label of a month-summary row. -/
def monthLabel (g : Nat × Nat) : String := toString g.1 ++ "/" ++ pad2 g.2

/-- One daily row of the current month (lines 249-258): the date column shows
`strftime("%Y-%m-%d")`, every other available column is `format_number`ed. -/
def dailyCells (avail : List String) (r : MRow) : List String :=
  avail.map fun c => if c = "Date" then dateLabel r.date else format_number (r.metrics c)

/-- Embedding of `_add_month_total_row` (lines 273-282). -/
def monthRollup (avail : List String) (g : Nat × Nat) (md : List MRow) : RollupRow :=
  ⟨.monthSummary, some g, none,
    monthLabel g :: (avail.drop 1).map fun c => format_number (colAgg c md)⟩

/-- Embedding of `_add_total_row` (lines 284-292). -/
def totalRollup (avail : List String) (rows : List MRow) : RollupRow :=
  ⟨.total, none, none,
    "TOTAL" :: (avail.drop 1).map fun c => format_number (colAgg c rows)⟩

/-- The rows `create_table_data` emits for one `(year, month)` group
(lines 241-265): daily rows plus a month total for the current month, a
lone month total for a complete non-current month, nothing otherwise. -/
def emitMonth (avail : List String) (latest g : Nat × Nat) (sorted : List MRow) :
    List RollupRow :=
  let md := sorted.filter fun r => ymOf r.date = g
  if g = latest then
    (md.map fun r => ⟨.daily, some g, none, dailyCells avail r⟩)
      ++ [monthRollup avail g md]
  else if is_month_complete md g.1 g.2 then [monthRollup avail g md]
  else []

/-- Rows of the frame whose `Date` parsed (line 196's notna filter). -/
def validRowsOf (f : Frame) : List MRow :=
  f.rows.filterMap fun r => r.dateOpt.map fun d => ⟨d, r.metrics⟩

/-- Descending-date comparison used to model
`sort_values("Date_dt", ascending=False)`. -/
def rowDescLe (a b : MRow) : Prop := b.date.key ≤ a.date.key

instance : DecidableRel rowDescLe := fun _ _ => Nat.decLe _ _

/-- The dimension's valid rows sorted newest-first (line 202). -/
def sortedRowsOf (f : Frame) : List MRow :=
  List.insertionSort rowDescLe (validRowsOf f)

/-- `latest_year_month = agent_data["YearMonth"].iloc[0]` (line 210): the
month of the newest row (junk on an empty frame, in which case
`create_table_data` returns `none` before using it). -/
def latestYMOf (f : Frame) : Nat × Nat :=
  match sortedRowsOf f with
  | [] => (0, 0)
  | r :: _ => ymOf r.date

/-- The `(year, month)` group keys in first-encounter order
(`groupby("YearMonth", sort=False)` on the descending-sorted frame,
line 239). -/
def monthKeysOf (f : Frame) : List (Nat × Nat) :=
  firstDedup ((sortedRowsOf f).map fun r => ymOf r.date)

/-- `available_columns` (lines 234-235): the display columns present in the
frame, silently dropping the missing ones. -/
def availColsOf (f : Frame) : List String :=
  display_columns.filter (· ∈ f.cols)

/-- The full `table_data` sequence built by `create_table_data`
(lines 237-269): the month groups' rows in group order, then the TOTAL row. -/
def tableRowsOf (f : Frame) : List RollupRow :=
  ((monthKeysOf f).map fun g =>
      emitMonth (availColsOf f) (latestYMOf f) g (sortedRowsOf f)).flatten
    ++ [totalRollup (availColsOf f) (sortedRowsOf f)]

/-- Embedding of `create_table_data` (lines 187-271): `none` models the
`return None, None, None, None` taken when no row has a parseable date. -/
def create_table_data (f : Frame) : Option (List RollupRow) :=
  if (validRowsOf f).isEmpty then none else some (tableRowsOf f)

/-- The spec's Metric Registry aggregator: `max` for the gauge metrics,
`sum` for the rest ("per-metric aggregation-function selection").  Stated
separately from the source-side `colAgg` so that the total-row theorem is a
genuine refinement, not an unfolding. -/
def gaugeMetrics : List String := ["DAU", "Activate KOL"]

/-- The registry-specified reduction of one metric column over a row set. -/
def registryAggregator (c : String) (rows : List MRow) : ℚ :=
  if c ∈ gaugeMetrics then listMax (rows.map fun r => r.metrics c)
  else (rows.map fun r => r.metrics c).sum

/-! ## The supervisor-team rollup builder: `create_supervisor_report`
(lines 425-597)

The builder receives one supervisor's slice of the aggregated frame; its
`daily_totals` frame groups that slice by date, summing every metric column
across the supervisor's BDs, and always carries the fixed column list below
(the `groupby(...).agg` dict of lines 447-467 raises on a missing column, so
on the success path all of them are present).  The `YearWeek` string key
`f"{iso_year}-W{iso_week:02d}"` of the code is injective in the ISO pair, so
it is modelled by the pair itself. -/

/-- One input row of `create_supervisor_report` (the per-BD aggregated frame
restricted to one supervisor). -/
structure SRow where
  dateOpt : Option Date
  metrics : String → ℚ

/-- The fixed `columns` list of the supervisor report (lines 486-492);
`available_columns` equals it on the success path. -/
def supervisorColumns : List String :=
  ["Date", "Reg", "FTD", "FTT", "Deposit ($)", "Withdraw ($)",
   "Net Deposit ($)", "DAU", "Spot Vol ($)", "Spot Fee ($)",
   "Futures Vol ($)", "Futures Fee ($)", "Total Vol ($)", "Total Fee ($)",
   "Profit Fee ($)", "Activate KOL", "EFTTC", "Bonus Consumption",
   "Bonus Transfer Into", "Futures PNL"]

/-- Descending comparison on dates (`sort_values("Date_dt", ascending=False)`
on the date-keyed `daily_totals`). -/
def dateDescLe (a b : Date) : Prop := b.key ≤ a.key

instance : DecidableRel dateDescLe := fun _ _ => Nat.decLe _ _

/-- The supervisor rows whose `Date` parsed (line 432). -/
def validSRowsOf (rows : List SRow) : List MRow :=
  rows.filterMap fun r => r.dateOpt.map fun d => ⟨d, r.metrics⟩

/-- The `daily_totals` frame (lines 447-470): one row per distinct date,
each metric summed across that date's rows, newest date first. -/
def dailyTotalsOf (rows : List SRow) : List MRow :=
  (List.insertionSort dateDescLe (firstDedup ((validSRowsOf rows).map fun r => r.date))).map
    fun d =>
      ⟨d, fun c =>
        (((validSRowsOf rows).filter fun r => r.date = d).map fun r => r.metrics c).sum⟩

/-- `latest_year_month = daily_totals["YearMonth"].iloc[0]` (line 473). -/
def latestSupYMOf (rows : List SRow) : Nat × Nat :=
  match dailyTotalsOf rows with
  | [] => (0, 0)
  | r :: _ => ymOf r.date

/-- The `(year, month)` group keys of `daily_totals` in first-encounter
order (line 497). -/
def supMonthKeysOf (rows : List SRow) : List (Nat × Nat) :=
  firstDedup ((dailyTotalsOf rows).map fun r => ymOf r.date)

/-- The current (newest) month's slice of `daily_totals`. -/
def latestMonthDataOf (rows : List SRow) : List MRow :=
  (dailyTotalsOf rows).filter fun r => ymOf r.date = latestSupYMOf rows

/-- The ISO-week keys recorded while emitting the current month's daily rows
(the `week_groups` dict of lines 520-535, whose insertion order is the order
each week's first day was emitted). -/
def weekKeysOf (rows : List SRow) : List (Int × Int) :=
  firstDedup ((latestMonthDataOf rows).map fun r => isoWeekKey r.date)

/-- The per-column reducer of the week rows and the current month's total
row (lines 548-556 and 563-571): `max` for `DAU`/`Activate KOL`, `sum` for
`Reg`, `sum` for `Onboard KOL`, `sum` otherwise. -/
def supColAgg (c : String) (rows : List MRow) : ℚ :=
  if c ∈ ["DAU", "Activate KOL"] then listMax (rows.map fun r => r.metrics c)
  else if c = "Reg" then (rows.map fun r => r.metrics c).sum
  else if c = "Onboard KOL" then (rows.map fun r => r.metrics c).sum
  else (rows.map fun r => r.metrics c).sum

/-- The per-column reducer of historical month rows and the TOTAL row
(lines 578-584 and 590-596): as above but without the separate `Reg` arm. -/
def supHistColAgg (c : String) (rows : List MRow) : ℚ :=
  if c ∈ ["DAU", "Activate KOL"] then listMax (rows.map fun r => r.metrics c)
  else if c = "Onboard KOL" then (rows.map fun r => r.metrics c).sum
  else (rows.map fun r => r.metrics c).sum

/-- Earliest date of a list (`Series.min()`; junk on an empty list). -/
def listMinDate : List Date → Date
  | [] => ⟨0, 0, 0⟩
  | d :: ds => ds.foldl (fun a b => if b.key < a.key then b else a) d

/-- Latest date of a list (`Series.max()`; junk on an empty list). -/
def listMaxDate : List Date → Date
  | [] => ⟨0, 0, 0⟩
  | d :: ds => ds.foldl (fun a b => if a.key < b.key then b else a) d

/-- The week-summary label `f"{start:%m/%d}~{end:%m/%d}"` (lines 543-545). -/
def weekLabel (wdata : List MRow) : String :=
  mdLabel (listMinDate (wdata.map fun r => r.date)) ++ "~"
    ++ mdLabel (listMaxDate (wdata.map fun r => r.date))

/-- One `weekSummary` row (lines 538-558), aggregated over `wdata` — the
caller passes the `YearWeek` slice of the full `daily_totals` range. -/
def weekRollup (w : Int × Int) (wdata : List MRow) : RollupRow :=
  ⟨.weekSummary, none, some w,
    weekLabel wdata
      :: (supervisorColumns.drop 1).map fun c => format_number (supColAgg c wdata)⟩

/-- The current month's total row (lines 560-572). -/
def supMonthRollup (g : Nat × Nat) (md : List MRow) : RollupRow :=
  ⟨.monthSummary, some g, none,
    monthLabel g
      :: (supervisorColumns.drop 1).map fun c => format_number (supColAgg c md)⟩

/-- A historical complete month's total row (lines 574-585). -/
def supHistMonthRollup (g : Nat × Nat) (md : List MRow) : RollupRow :=
  ⟨.monthSummary, some g, none,
    monthLabel g
      :: (supervisorColumns.drop 1).map fun c => format_number (supHistColAgg c md)⟩

/-- The team TOTAL row (lines 587-597). -/
def supTotalRollup (rows : List MRow) : RollupRow :=
  ⟨.total, none, none,
    "TOTAL"
      :: (supervisorColumns.drop 1).map fun c => format_number (supHistColAgg c rows)⟩

/-- The rows `create_supervisor_report` emits for one `(year, month)` group
(lines 505-585): for the current month, all daily rows, then one week
summary per ISO week encountered (each aggregated over that week's slice of
the full `daily_totals` range `dts`), then the month total; for a
non-current month, its total if complete, nothing otherwise. -/
def emitSupMonth (latest g : Nat × Nat) (dts : List MRow) : List RollupRow :=
  let md := dts.filter fun r => ymOf r.date = g
  if g = latest then
    (md.map fun r => ⟨.daily, some g, none, dailyCells supervisorColumns r⟩)
      ++ ((firstDedup (md.map fun r => isoWeekKey r.date)).map fun w =>
            weekRollup w (dts.filter fun r => isoWeekKey r.date = w))
      ++ [supMonthRollup g md]
  else if is_month_complete md g.1 g.2 then [supHistMonthRollup g md]
  else []

/-- The full `table_data` sequence of `create_supervisor_report`
(lines 496-597). -/
def supTableRowsOf (rows : List SRow) : List RollupRow :=
  ((supMonthKeysOf rows).map fun g =>
      emitSupMonth (latestSupYMOf rows) g (dailyTotalsOf rows)).flatten
    ++ [supTotalRollup (dailyTotalsOf rows)]

/-- Embedding of `create_supervisor_report` (lines 425-597): `none` models
the early `return None` taken when no row has a parseable date. -/
def create_supervisor_report (rows : List SRow) : Option (List RollupRow) :=
  if (validSRowsOf rows).isEmpty then none else some (supTableRowsOf rows)

/-! ## The comparator: `format_change_rate` and the per-metric cells of
`create_supervisors_daily_report` (lines 710-840) -/

/-- Embedding of `format_change_rate` (lines 710-725).  A `none` previous
value models `pd.isna(previous)`. -/
def format_change_rate (current : ℚ) (previous : Option ℚ) : String :=
  match previous with
  | none => if 0 < current then "+100%" else "0%"
  | some p =>
    if p = 0 then (if 0 < current then "+100%" else "0%")
    else
      let changeRate := (current - p) / |p| * 100
      if 0 < changeRate then "+" ++ fmtOneDecimal changeRate ++ "%"
      else if changeRate < 0 then fmtOneDecimal changeRate ++ "%"
      else "0%"

/-- The guarded metric lookup of `create_supervisors_daily_report`
(lines 813-830): a metric name missing from the row's index, or a NaN value
(`none`), silently becomes `0`. -/
def safeMetricValue (idx : List String) (row : String → Option ℚ) (m : String) : ℚ :=
  if m ∈ idx then (match row m with | some v => v | none => 0) else 0

/-- One `"value (change%)"` cell of the comparison table (lines 805-838);
`prev = none` models a supervisor with a single day of data (`change = "-"`). -/
def comparisonCell (idx : List String) (cur : String → Option ℚ)
    (prev : Option (String → Option ℚ)) (m : String) : String :=
  let currentValue := safeMetricValue idx cur m
  let changeRate :=
    match prev with
    | some p => format_change_rate currentValue (some (safeMetricValue idx p m))
    | none => "-"
  format_number currentValue ++ " (" ++ changeRate ++ ")"

/-! ## The dimension key builder inside `process_raw_data` (lines 100-106) -/

/-- The per-level canonicalization of lines 101-102: `astype(str)` followed
by the exact-value replacements `"nan" -> ""` and `"0" -> ""`. -/
def canonLevel (s : String) : String :=
  if s = "nan" then "" else if s = "0" then "" else s

/-- One application of the anchored regex `"^ - "` (line 105): drop the
pattern when the string starts with it. -/
def stripAnchoredHead (s pat : String) : String :=
  if s.startsWith pat then s.drop pat.length else s

/-- One application of the anchored regex `" - $"` (line 106): drop the
pattern when the string ends with it. -/
def stripAnchoredTail (s pat : String) : String :=
  if s.endsWith pat then s.dropRight pat.length else s

/-- Embedding of the `dimension` construction (lines 103-106): join the two
canonicalized levels with `" - "`, then `.str.strip()`, then the literal
replacement `" -  - " -> " - "`, then the two anchored regex removals.
Note the strip runs first, exactly as in the source. -/
def buildDimension (director bd : String) : String :=
  let s0 := canonLevel director ++ " - " ++ canonLevel bd
  let s1 := s0.trim
  let s2 := s1.replace " -  - " " - "
  let s3 := stripAnchoredHead s2 " - "
  stripAnchoredTail s3 " - "

/-! ## Raw-data processing as a state-passing function: `process_raw_data`
(lines 89-118)

Python passes the dataframe by reference: the column assignments of
lines 92-95 mutate the caller's frame, while the rebinding
`df = df.fillna('')` on line 98 makes every later step act on a fresh
frame.  The embedding therefore returns a pair: the frame the function
returns, and the caller's frame as it stands after the call. -/

/-- A raw cell: source data is text, the numeric coercion writes numbers. -/
inductive PCell
  | str (s : String)
  | num (q : ℚ)
deriving DecidableEq, Repr

/-- A raw dataframe: column list plus rows (each row is its column access). -/
structure RawFrame where
  cols : List String
  rows : List (String → PCell)

/-- `self.numeric_columns` (lines 23-34). -/
def numeric_columns : List String :=
  ["注册用户", "完成KYC用户", "邀请用户", "B端邀请用户", "直客人数",
   "FTD", "FTT", "effective FTT",
   "充值人数", "充值折U", "提现人数", "提现折U", "净充值折U",
   "合约划出", "合约划入", "合约净划入", "赠金划出", "赠金划入", "合约赠金净划入",
   "合约交易次数", "合约交易人数", "合约交易金额", "合约交易手续费", "合约交易平仓盈亏", "合约赠金手续费",
   "现货交易次数", "现货交易人数", "现货交易金额", "现货交易手续费", "赠金真实消耗",
   "B端返佣", "B端合约返佣", "B端现货返佣", "C端返佣", "C端合约返佣", "C端现货返佣",
   "净手续费(现货&合约)", "手续费(现货&合约)", "交易人数",
   "首次合约赠金交易人数", "合约赠金亏损", "effective FTTf",
   "次日留存合约新增交易用户数", "EFTT(充值≥100U)", "EFTTC"]

/-- `astype(str)` on one cell. -/
def pcellStr : PCell → String
  | .str s => s
  | .num q => toString q.num ++ (if q.den = 1 then "" else "/" ++ toString q.den)

/-- The digits of a decimal literal, as `(value, digit count)`. -/
def digitsVal (cs : List Char) : Option (Nat × Nat) :=
  cs.foldl
    (fun acc c =>
      acc.bind fun p =>
        if c.isDigit then some (p.1 * 10 + (c.toNat - 48), p.2 + 1) else none)
    (some (0, 0))

/-- Parse a plain decimal literal (optional sign, optional fractional part)
into mantissa and fractional-digit count.  Models `pd.to_numeric` on the
simple numerals the source data contains; anything else is `none`
(`errors="coerce"`). -/
def parseNumParts (s : String) : Option (Int × Nat) :=
  let core := fun (sgn : Int) (t : String) =>
    match t.splitOn "." with
    | [ip] => (digitsVal ip.toList).bind fun p =>
        if p.2 = 0 then none else some (sgn * p.1, 0)
    | [ip, fp] => (digitsVal ip.toList).bind fun pi =>
        (digitsVal fp.toList).bind fun pf =>
          if pi.2 = 0 ∧ pf.2 = 0 then none
          else some (sgn * (pi.1 * 10 ^ pf.2 + pf.1), pf.2)
    | _ => none
  if s.startsWith "-" then core (-1) (s.drop 1)
  else if s.startsWith "+" then core 1 (s.drop 1)
  else core 1 s

/-- The parsed rational value of a decimal literal. -/
def parseNum (s : String) : Option ℚ :=
  (parseNumParts s).map fun p => (p.1 : ℚ) / 10 ^ p.2

/-- One cell of the numeric cleaning chain of line 94: comma removal
(`.str.replace(',', '')`) then the exact-value replacement `"nan" -> "0"`. -/
def cleanNumStr (s : String) : String :=
  let t := s.replace "," ""
  if t = "nan" then "0" else t

/-- `pd.to_numeric(..., errors="coerce").fillna(0)` on one cleaned cell. -/
def coerceNum (s : String) : ℚ := (parseNum s).getD 0

/-- The in-place rewrite of one numeric column (lines 94-95). -/
def updateNumericCol (f : RawFrame) (c : String) : RawFrame :=
  ⟨f.cols, f.rows.map fun row => fun p =>
    if p = c then .num (coerceNum (cleanNumStr (pcellStr (row c)))) else row p⟩

/-- The numeric-column cleaning loop (lines 92-95): the sequential in-place
rewrite of every numeric column present in the frame.  This is the part of
`process_raw_data` the caller's frame has undergone after the call. -/
def numericClean (f : RawFrame) : RawFrame :=
  (numeric_columns.filter (· ∈ f.cols)).foldl updateNumericCol f

/-- The one-shot per-cell description of the numeric cleaning: what a pure
stage would compute. -/
def pointwiseClean (cols : List String) (row : String → PCell) : String → PCell :=
  fun c =>
    if c ∈ numeric_columns ∧ c ∈ cols then
      .num (coerceNum (cleanNumStr (pcellStr (row c))))
    else row c

/-- `"离职" in s` (the departed-staff marker test of lines 110-112). -/
def containsDeparted (s : String) : Bool := decide (s.splitOn "离职" ≠ [s])

/-- Lines 101-106 at frame level: canonicalize the two hierarchy columns in
place and append the built `dimension` column. -/
def dimensionTag (f : RawFrame) : RawFrame :=
  ⟨f.cols ++ ["dimension"],
   f.rows.map fun row => fun c =>
     if c = "dimension" then
       .str (buildDimension (pcellStr (row "商务总监")) (pcellStr (row "商务BD")))
     else if c = "商务总监" then .str (canonLevel (pcellStr (row "商务总监")))
     else if c = "商务BD" then .str (canonLevel (pcellStr (row "商务BD")))
     else row c⟩

/-- Lines 110-112: drop every row whose director, BD or dimension contains
the departed marker. -/
def filterDeparted (f : RawFrame) : RawFrame :=
  ⟨f.cols, f.rows.filter fun row =>
    !(containsDeparted (pcellStr (row "商务总监"))
      || containsDeparted (pcellStr (row "商务BD"))
      || containsDeparted (pcellStr (row "dimension")))⟩

/-- Embedding of `process_raw_data` (lines 89-118) in state-passing style:
first component the returned frame, second component the caller's frame
after the call. -/
def process_raw_data (f : RawFrame) : RawFrame × RawFrame :=
  (filterDeparted (dimensionTag (numericClean f)), numericClean f)

/-! ## The aggregator: `_aggregate_data_impl` at `["dimension", "统计日期"]`
granularity (`aggregate_data`, lines 120-175) -/

/-- One filtered, keyed raw record as the aggregator sees it: its dimension
key, its raw date string (`统计日期`), its sub-agent (`总代理`), and its
numeric columns. -/
structure RawRec where
  dimension : String
  date : String
  agent : String
  vals : String → ℚ

/-- The groupby key `(dimension, 统计日期)`. -/
def aggKey (r : RawRec) : String × String := (r.dimension, r.date)

/-- Lexicographic order on the groupby key, dimension first: the ascending
key order pandas `groupby(..., sort=True)` produces. -/
def keyLe (a b : String × String) : Prop :=
  a.1 < b.1 ∨ (a.1 = b.1 ∧ a.2 ≤ b.2)

instance : DecidableRel keyLe := fun _ _ => inferInstanceAs (Decidable (_ ∨ _))

/-- The 18 summed source columns of the `.agg` dict (lines 123-142), paired
with their renamed display name (`column_mapping`, lines 36-58), in dict
order. -/
def aggColumnPairs : List (String × String) :=
  [("注册用户", "Reg"), ("FTD", "FTD"), ("FTT", "FTT"),
   ("充值折U", "Deposit ($)"), ("提现折U", "Withdraw ($)"),
   ("净充值折U", "Net Deposit ($)"), ("交易人数", "DAU"),
   ("现货交易金额", "Spot Vol ($)"), ("现货交易手续费", "Spot Fee ($)"),
   ("合约交易金额", "Futures Vol ($)"), ("合约交易手续费", "Futures Fee ($)"),
   ("手续费(现货&合约)", "Total Fee ($)"), ("净手续费(现货&合约)", "Profit Fee ($)"),
   ("effective FTT", "EFTT"), ("EFTTC", "EFTTC"),
   ("赠金真实消耗", "Bonus Consumption"), ("合约赠金净划入", "Bonus Transfer Into"),
   ("合约交易平仓盈亏", "Futures PNL")]

/-- `self.int_columns` (line 60). -/
def int_columns : List String :=
  ["Reg", "FTD", "FTT", "DAU", "Activate KOL", "EFTTC"]

/-- `astype(int)`: truncation toward zero. -/
def truncQ (q : ℚ) : ℚ := if 0 ≤ q then (⌊q⌋ : ℚ) else -((⌊-q⌋ : ℚ))

/-- `Series.round(2)` (round half to even at two decimals). -/
def round2 (q : ℚ) : ℚ := (roundHalfEven (100 * q) : ℚ) / 100

/-- The dtype adjustment of lines 158-169: integer columns truncate, the
remaining metric columns round to two decimals. -/
def displayAdjust (name : String) (q : ℚ) : ℚ :=
  if name ∈ int_columns then truncQ q else round2 q

/-- One output row of the aggregator: key fields plus named metric cells. -/
structure AggOut where
  dimension : String
  date : String
  cells : List (String × ℚ)
deriving DecidableEq, Repr

/-- The records of one `(dimension, date)` group. -/
def groupOf (records : List RawRec) (k : String × String) : List RawRec :=
  records.filter fun r => aggKey r = k

/-- The summed value of one source column over a group. -/
def sumMetric (grp : List RawRec) (src : String) : ℚ :=
  (grp.map fun r => r.vals src).sum

/-- One aggregated row (lines 123-169): the 18 summed columns, the derived
`Total Vol ($)` (line 145), and the `Activate KOL` distinct-agent count
(lines 148-153), each dtype-adjusted. -/
def mkAggRow (records : List RawRec) (k : String × String) : AggOut :=
  let grp := groupOf records k
  ⟨k.1, k.2,
    (aggColumnPairs.map fun p => (p.2, displayAdjust p.2 (sumMetric grp p.1)))
      ++ [("Total Vol ($)",
            displayAdjust "Total Vol ($)"
              (sumMetric grp "现货交易金额" + sumMetric grp "合约交易金额"))]
      ++ [("Activate KOL",
            truncQ (((grp.map fun r => r.agent).dedup).length : ℚ))]⟩

/-- The distinct group keys in ascending lexicographic order
(`groupby` sorts its keys by default). -/
def aggKeysOf (records : List RawRec) : List (String × String) :=
  List.insertionSort keyLe ((records.map aggKey).dedup)

/-- Embedding of `aggregate_data` (lines 120-175): one output row per
distinct `(dimension, date)` key, keys in ascending order. -/
def aggregate_data (records : List RawRec) : List AggOut :=
  (aggKeysOf records).map (mkAggRow records)

/-! ## Concrete sample inputs used by witnesses and counterexamples -/

/-- A sample aggregated row (metrics beyond `Reg` and `DAU` are zero). -/
def sampleARow (y m d : Nat) (reg dau : ℚ) : ARow :=
  ⟨some ⟨y, m, d⟩, fun c => if c = "Reg" then reg else if c = "DAU" then dau else 0⟩

/-- A sample dimension frame: two June 2024 days (the current month) and one
lone May 2024 day (a non-current, incomplete month). -/
def sampleFrame : Frame :=
  ⟨["Date", "Reg", "DAU"],
   [sampleARow 2024 5 3 7 2, sampleARow 2024 6 10 1 5, sampleARow 2024 6 11 2 4]⟩

/-- A sample supervisor row. -/
def sampleSRow (y m d : Nat) (reg : ℚ) : SRow :=
  ⟨some ⟨y, m, d⟩, fun c => if c = "Reg" then reg else 0⟩

/-- Supervisor data whose newest ISO week straddles the May/June 2024 month
boundary: 2024-05-31 (Fri), 2024-06-01 (Sat) and 2024-06-02 (Sun) all lie in
ISO week (2024, 22), but only the June days are current-month days. -/
def straddleRows : List SRow :=
  [sampleSRow 2024 5 31 10, sampleSRow 2024 6 1 20, sampleSRow 2024 6 2 40]

/-- Supervisor data with two consecutive current-month days in one ISO week:
2024-06-24 (Mon) and 2024-06-25 (Tue), both in ISO week (2024, 26). -/
def twoDayRows : List SRow :=
  [sampleSRow 2024 6 24 1, sampleSRow 2024 6 25 2]

/-- Supervisor data with two ISO weeks inside the current month June 2024:
2024-06-25 (Tue) and 2024-06-24 (Mon) in ISO week (2024, 26), and
2024-06-17 (Mon) in ISO week (2024, 25). -/
def twoWeekRows : List SRow :=
  [sampleSRow 2024 6 17 4, sampleSRow 2024 6 24 1, sampleSRow 2024 6 25 2]

/-- A sample month group for the completeness-test claim: two June 2024 days. -/
def sampleMonthGroup : List MRow :=
  [⟨⟨2024, 6, 10⟩, fun _ => 0⟩, ⟨⟨2024, 6, 11⟩, fun _ => 0⟩]

/-- A raw frame with one row and a thousands-separated numeric cell. -/
def sampleRawFrame : RawFrame :=
  ⟨["商务总监", "商务BD", "统计日期", "注册用户"],
   [fun c => if c = "注册用户" then .str "1,000" else .str "x"]⟩

/-- Two sample raw records sharing nothing but metric columns. -/
def sampleRec1 : RawRec :=
  ⟨"A - B", "2024-06-10", "k1", fun c => if c = "注册用户" then 3 else 1⟩

/-- A second sample raw record with a smaller key. -/
def sampleRec2 : RawRec :=
  ⟨"A - A", "2024-06-09", "k2", fun c => if c = "注册用户" then 5 else 2⟩

/-! ## Library lemmas about the helpers -/

theorem mem_firstDedupAux {α : Type} [DecidableEq α] (l : List α) :
    ∀ (seen : List α) (x : α), x ∈ firstDedupAux l seen ↔ x ∈ l ∧ x ∉ seen := by
  induction l with
  | nil => intro seen x; simp [firstDedupAux]
  | cons a l ih =>
    intro seen x
    by_cases ha : a ∈ seen
    · rw [firstDedupAux, if_pos ha, ih]
      constructor
      · rintro ⟨hx, hs⟩; exact ⟨List.mem_cons_of_mem _ hx, hs⟩
      · rintro ⟨hx, hs⟩
        rcases List.mem_cons.mp hx with rfl | hx
        · exact absurd ha hs
        · exact ⟨hx, hs⟩
    · rw [firstDedupAux, if_neg ha]
      constructor
      · intro hx
        rcases List.mem_cons.mp hx with rfl | hx
        · exact ⟨List.mem_cons_self _ _, ha⟩
        · obtain ⟨h1, h2⟩ := (ih _ _).mp hx
          exact ⟨List.mem_cons_of_mem _ h1,
            fun hs => h2 (List.mem_cons_of_mem _ hs)⟩
      · rintro ⟨hx, hs⟩
        rcases List.mem_cons.mp hx with rfl | hx
        · exact List.mem_cons_self _ _
        · by_cases hxa : x = a
          · subst hxa; exact List.mem_cons_self _ _
          · exact List.mem_cons_of_mem _ ((ih _ _).mpr
              ⟨hx, fun h => by
                rcases List.mem_cons.mp h with h' | h'
                · exact hxa h'
                · exact hs h'⟩)

theorem mem_firstDedup {α : Type} [DecidableEq α] {l : List α} {x : α} :
    x ∈ firstDedup l ↔ x ∈ l := by
  rw [firstDedup, mem_firstDedupAux]
  simp

theorem nodup_firstDedupAux {α : Type} [DecidableEq α] (l : List α) :
    ∀ seen : List α, (firstDedupAux l seen).Nodup := by
  induction l with
  | nil => intro seen; simp [firstDedupAux]
  | cons a l ih =>
    intro seen
    by_cases ha : a ∈ seen
    · rw [firstDedupAux, if_pos ha]; exact ih seen
    · rw [firstDedupAux, if_neg ha]
      refine List.nodup_cons.mpr ⟨fun hmem => ?_, ih _⟩
      exact ((mem_firstDedupAux l _ a).mp hmem).2 (List.mem_cons_self _ _)

theorem nodup_firstDedup {α : Type} [DecidableEq α] (l : List α) :
    (firstDedup l).Nodup := nodup_firstDedupAux l []

theorem le_foldl_max (l : List ℚ) :
    ∀ a : ℚ, a ≤ l.foldl max a ∧ ∀ x ∈ l, x ≤ l.foldl max a := by
  induction l with
  | nil => intro a; simp
  | cons y l ih =>
    intro a
    refine ⟨le_trans (le_max_left a y) (ih (max a y)).1, ?_⟩
    intro x hx
    rcases List.mem_cons.mp hx with rfl | hx
    · exact le_trans (le_max_right a x) (ih (max a x)).1
    · exact (ih (max a y)).2 x hx

theorem foldl_max_mem (l : List ℚ) :
    ∀ a : ℚ, l.foldl max a = a ∨ l.foldl max a ∈ l := by
  induction l with
  | nil => intro a; left; rfl
  | cons y l ih =>
    intro a
    rcases ih (max a y) with h | h
    · rcases max_choice a y with hm | hm
      · left; rw [List.foldl_cons, h, hm]
      · right; rw [List.foldl_cons, h, hm]; exact List.mem_cons_self _ _
    · right; exact List.mem_cons_of_mem _ h

theorem listMax_mem {l : List ℚ} (h : l ≠ []) : listMax l ∈ l := by
  match l with
  | x :: xs =>
    rcases foldl_max_mem xs x with h' | h'
    · rw [listMax, h']; exact List.mem_cons_self _ _
    · exact List.mem_cons_of_mem _ h'

theorem le_listMax {l : List ℚ} {x : ℚ} (h : x ∈ l) : x ≤ listMax l := by
  match l with
  | y :: ys =>
    rcases List.mem_cons.mp h with rfl | h'
    · exact (le_foldl_max ys x).1
    · exact (le_foldl_max ys y).2 x h'

theorem listMax_perm {l₁ l₂ : List ℚ} (h : l₁.Perm l₂) : listMax l₁ = listMax l₂ := by
  rcases eq_or_ne l₁ [] with rfl | h₁
  · rw [h.nil_eq]
  · have h₂ : l₂ ≠ [] := fun he => h₁ ((he ▸ h).eq_nil)
    exact le_antisymm
      (le_listMax (h.mem_iff.mp (listMax_mem h₁)))
      (le_listMax (h.mem_iff.mpr (listMax_mem h₂)))

/-- Filtering the concatenation of per-key blocks for the rows tagged with one
key `g` of a duplicate-free key list yields exactly `g`'s block. -/
theorem filter_flatten_blocks {κ ρ : Type} (keys : List κ) (emit : κ → List ρ)
    (p : ρ → Bool) (g : κ) (hg : g ∈ keys) (hnd : keys.Nodup)
    (hyes : ∀ r ∈ emit g, p r = true)
    (hno : ∀ g' ∈ keys, g' ≠ g → ∀ r ∈ emit g', p r = false) :
    ((keys.map emit).flatten).filter p = emit g := by
  induction keys with
  | nil => cases hg
  | cons k ks ih =>
    rw [List.map_cons, List.flatten_cons, List.filter_append]
    obtain ⟨hk, hks⟩ := List.nodup_cons.mp hnd
    rcases List.mem_cons.mp hg with rfl | hg'
    · rw [List.filter_eq_self.mpr hyes]
      have hrest : ((ks.map emit).flatten).filter p = [] := by
        rw [List.filter_eq_nil_iff]
        intro r hr
        obtain ⟨blk, hblk, hrb⟩ := List.mem_flatten.mp hr
        obtain ⟨g', hg', rfl⟩ := List.mem_map.mp hblk
        have : p r = false := hno g' (List.mem_cons_of_mem _ hg')
          (fun he => hk (he ▸ hg')) r hrb
        simp [this]
      rw [hrest, List.append_nil]
    · have hkg : k ≠ g := fun he => hk (he ▸ hg')
      rw [List.filter_eq_nil_iff.mpr ?_, List.nil_append]
      · exact ih hg' hks (fun g' h hne => hno g' (List.mem_cons_of_mem _ h) hne)
      · intro r hr
        simp [hno k (List.mem_cons_self _ _) hkg r hr]

/-! ## Facts about `emitMonth` -/

theorem srcMonth_of_emitMonth {avail : List String} {latest g : Nat × Nat}
    {sorted : List MRow} {r : RollupRow} (hr : r ∈ emitMonth avail latest g sorted) :
    r.srcMonth = some g := by
  rw [emitMonth] at hr
  split at hr
  · rcases List.mem_append.mp hr with h | h
    · obtain ⟨x, _, rfl⟩ := List.mem_map.mp h; rfl
    · rw [List.mem_singleton.mp h]; rfl
  · split at hr
    · rw [List.mem_singleton.mp hr]; rfl
    · cases hr

theorem kind_of_emitMonth {avail : List String} {latest g : Nat × Nat}
    {sorted : List MRow} {r : RollupRow} (hr : r ∈ emitMonth avail latest g sorted) :
    r.kind = BKind.daily ∨ r.kind = BKind.monthSummary := by
  rw [emitMonth] at hr
  split at hr
  · rcases List.mem_append.mp hr with h | h
    · obtain ⟨x, _, rfl⟩ := List.mem_map.mp h; left; rfl
    · rw [List.mem_singleton.mp h]; right; rfl
  · split at hr
    · rw [List.mem_singleton.mp hr]; right; rfl
    · cases hr

theorem emitMonth_of_ne {avail : List String} {latest g : Nat × Nat}
    {sorted : List MRow} (hne : g ≠ latest) :
    emitMonth avail latest g sorted
      = (if is_month_complete (sorted.filter fun r => ymOf r.date = g) g.1 g.2
         then [monthRollup avail g (sorted.filter fun r => ymOf r.date = g)]
         else []) := by
  rw [emitMonth, if_neg hne]

/-! ## Claim theorems for the per-dimension rollup builder -/

/-- C1.  In `create_table_data`'s output, a month group other than the current
(most recent) month contributes exactly one `monthSummary` rollup row when its
distinct day-of-month count reaches the calendar day count of its
`(year, month)` (the `is_month_complete` test), and contributes no output row
at all otherwise — no daily, week or month row carries its data. -/
theorem c1_noncurrent_month_rollup (f : Frame) (g : Nat × Nat)
    (hg : g ∈ monthKeysOf f) (hne : g ≠ latestYMOf f) :
    (tableRowsOf f).filter (fun r => r.srcMonth = some g)
      = (if is_month_complete ((sortedRowsOf f).filter fun r => ymOf r.date = g) g.1 g.2
         then [monthRollup (availColsOf f) g ((sortedRowsOf f).filter fun r => ymOf r.date = g)]
         else [])
    ∧ ((tableRowsOf f).filter (fun r => r.srcMonth = some g)).map (fun r => r.kind)
      = (if is_month_complete ((sortedRowsOf f).filter fun r => ymOf r.date = g) g.1 g.2
         then [BKind.monthSummary] else []) := by
  have hmain : (tableRowsOf f).filter (fun r => r.srcMonth = some g)
      = emitMonth (availColsOf f) (latestYMOf f) g (sortedRowsOf f) := by
    rw [tableRowsOf, List.filter_append]
    have htot : [totalRollup (availColsOf f) (sortedRowsOf f)].filter
        (fun r => decide (r.srcMonth = some g)) = [] := by
      simp [totalRollup]
    rw [htot, List.append_nil]
    exact filter_flatten_blocks (monthKeysOf f) _ _ g hg (nodup_firstDedup _)
      (fun r hr => by simp [srcMonth_of_emitMonth hr])
      (fun g' _ hne' r hr => by simp [srcMonth_of_emitMonth hr, hne'])
  rw [hmain, emitMonth_of_ne hne]
  constructor
  · rfl
  · split <;> rfl

/-- Perm-invariance of the per-column reducer. -/
theorem colAgg_perm {l₁ l₂ : List MRow} (c : String) (h : l₁.Perm l₂) :
    colAgg c l₁ = colAgg c l₂ := by
  rw [colAgg, colAgg]
  split
  · exact listMax_perm (h.map _)
  · exact (h.map _).sum_eq

/-- The source-side reducer is the registry aggregator of the spec. -/
theorem colAgg_eq_registryAggregator (c : String) (rows : List MRow) :
    colAgg c rows = registryAggregator c rows := rfl

/-- C2.  For a frame with at least one valid dated row, `create_table_data`
succeeds, the emitted sequence ends with the TOTAL row, that row is the only
`total`-kind row, and each of its metric cells is the registry aggregator
(max for the gauge metrics `DAU` and `Activate KOL`, sum for the rest)
applied over all valid input rows — including rows of months suppressed from
the bucketed output. -/
theorem c2_total_row (f : Frame) (hv : (validRowsOf f).isEmpty = false) :
    create_table_data f = some (tableRowsOf f)
    ∧ (tableRowsOf f).getLast? = some (totalRollup (availColsOf f) (sortedRowsOf f))
    ∧ ((tableRowsOf f).filter fun r => r.kind = BKind.total).length = 1
    ∧ (totalRollup (availColsOf f) (sortedRowsOf f)).cells
        = "TOTAL" :: ((availColsOf f).drop 1).map
            (fun c => format_number (registryAggregator c (validRowsOf f))) := by
  refine ⟨?_, ?_, ?_, ?_⟩
  · rw [create_table_data, hv]; rfl
  · rw [tableRowsOf, List.getLast?_concat]
  · rw [tableRowsOf, List.filter_append]
    have hbody : (((monthKeysOf f).map fun g =>
        emitMonth (availColsOf f) (latestYMOf f) g (sortedRowsOf f)).flatten).filter
          (fun r => decide (r.kind = BKind.total)) = [] := by
      rw [List.filter_eq_nil_iff]
      intro r hr
      obtain ⟨blk, hblk, hrb⟩ := List.mem_flatten.mp hr
      obtain ⟨g', _, rfl⟩ := List.mem_map.mp hblk
      rcases kind_of_emitMonth hrb with h | h <;> simp [h]
    rw [hbody, List.nil_append]
    simp [totalRollup]
  · rw [totalRollup]
    refine congrArg (fun l => "TOTAL" :: l) (List.map_congr_left fun c _ => ?_)
    rw [← colAgg_eq_registryAggregator]
    exact congrArg format_number
      (colAgg_perm c (List.perm_insertionSort rowDescLe (validRowsOf f)))

/-- C9.  For a month group all of whose rows carry valid dates in the single
month `(y, m)`, the distinct day-of-month count can never exceed the calendar
day count, so the source's completeness test `daysInMonth ≤ uniqueDays` holds
exactly when every calendar day of the month appears in some row. -/
theorem c9_completeness_equiv (md : List MRow) (y m : Nat)
    (hval : ∀ r ∈ md, r.date.year = y ∧ r.date.month = m
      ∧ 1 ≤ r.date.day ∧ r.date.day ≤ daysInMonth y m) :
    uniqueDays md ≤ daysInMonth y m
    ∧ (is_month_complete md y m = true ↔
        ∀ d, 1 ≤ d → d ≤ daysInMonth y m → ∃ r ∈ md, r.date.day = d) := by
  have hsub : (md.map fun r => r.date.day).toFinset ⊆ Finset.Icc 1 (daysInMonth y m) := by
    intro d hd
    rw [List.mem_toFinset, List.mem_map] at hd
    obtain ⟨r, hr, rfl⟩ := hd
    exact Finset.mem_Icc.mpr ⟨(hval r hr).2.2.1, (hval r hr).2.2.2⟩
  have hcard : uniqueDays md = (md.map fun r => r.date.day).toFinset.card := by
    rw [uniqueDays, List.card_toFinset]
  have hIccCard : (Finset.Icc 1 (daysInMonth y m)).card = daysInMonth y m := by
    rw [Nat.card_Icc]; omega
  have hle : uniqueDays md ≤ daysInMonth y m := by
    rw [hcard, ← hIccCard]
    exact Finset.card_le_card hsub
  refine ⟨hle, ?_⟩
  rw [is_month_complete, decide_eq_true_eq]
  constructor
  · intro hcomp d hd1 hdm
    have hset : (md.map fun r => r.date.day).toFinset = Finset.Icc 1 (daysInMonth y m) :=
      Finset.eq_of_subset_of_card_le hsub (by rw [hIccCard, ← hcard]; exact hcomp)
    have : d ∈ (md.map fun r => r.date.day).toFinset := by
      rw [hset]; exact Finset.mem_Icc.mpr ⟨hd1, hdm⟩
    rw [List.mem_toFinset, List.mem_map] at this
    obtain ⟨r, hr, hrd⟩ := this
    exact ⟨r, hr, hrd⟩
  · intro hall
    have hsup : Finset.Icc 1 (daysInMonth y m) ⊆ (md.map fun r => r.date.day).toFinset := by
      intro d hd
      obtain ⟨hd1, hdm⟩ := Finset.mem_Icc.mp hd
      obtain ⟨r, hr, hrd⟩ := hall d hd1 hdm
      rw [List.mem_toFinset, List.mem_map]
      exact ⟨r, hr, hrd⟩
    calc daysInMonth y m = (Finset.Icc 1 (daysInMonth y m)).card := hIccCard.symm
      _ ≤ (md.map fun r => r.date.day).toFinset.card := Finset.card_le_card hsup
      _ = uniqueDays md := hcard.symm

/-- Variant of `filter_flatten_blocks` keeping `g`'s own filter: if every
other key's block is filtered away, filtering the flattened blocks equals
filtering `g`'s block. -/
theorem filter_flatten_single {κ ρ : Type} (keys : List κ) (emit : κ → List ρ)
    (p : ρ → Bool) (g : κ) (hg : g ∈ keys) (hnd : keys.Nodup)
    (hno : ∀ g' ∈ keys, g' ≠ g → ∀ r ∈ emit g', p r = false) :
    ((keys.map emit).flatten).filter p = (emit g).filter p := by
  induction keys with
  | nil => cases hg
  | cons k ks ih =>
    rw [List.map_cons, List.flatten_cons, List.filter_append]
    obtain ⟨hk, hks⟩ := List.nodup_cons.mp hnd
    rcases List.mem_cons.mp hg with rfl | hg'
    · have hrest : ((ks.map emit).flatten).filter p = [] := by
        rw [List.filter_eq_nil_iff]
        intro r hr
        obtain ⟨blk, hblk, hrb⟩ := List.mem_flatten.mp hr
        obtain ⟨g', hg', rfl⟩ := List.mem_map.mp hblk
        simp [hno g' (List.mem_cons_of_mem _ hg') (fun he => hk (he ▸ hg')) r hrb]
      rw [hrest, List.append_nil]
    · have hkg : k ≠ g := fun he => hk (he ▸ hg')
      have hhead : (emit k).filter p = [] := by
        rw [List.filter_eq_nil_iff]
        intro r hr
        simp [hno k (List.mem_cons_self _ _) hkg r hr]
      rw [hhead, List.nil_append]
      exact ih hg' hks (fun g' h hne => hno g' (List.mem_cons_of_mem _ h) hne)

/-- Filtering a map over a duplicate-free key list for the one key whose
image satisfies the predicate yields that key's image alone. -/
theorem filter_map_eq_single {κ ρ : Type} (keys : List κ) (mk : κ → ρ)
    (p : ρ → Bool) (w : κ) (hw : w ∈ keys) (hnd : keys.Nodup)
    (hp : ∀ w' ∈ keys, (p (mk w') = true ↔ w' = w)) :
    (keys.map mk).filter p = [mk w] := by
  induction keys with
  | nil => cases hw
  | cons k ks ih =>
    rw [List.map_cons, List.filter_cons]
    obtain ⟨hk, hks⟩ := List.nodup_cons.mp hnd
    rcases List.mem_cons.mp hw with rfl | hw'
    · rw [if_pos ((hp w (List.mem_cons_self _ _)).mpr rfl)]
      have hrest : (ks.map mk).filter p = [] := by
        rw [List.filter_eq_nil_iff]
        intro r hr
        obtain ⟨w', hw', rfl⟩ := List.mem_map.mp hr
        intro hpr
        exact hk (((hp w' (List.mem_cons_of_mem _ hw')).mp (by simpa using hpr)) ▸ hw')
      rw [hrest]
    · have hkne : ¬(p (mk k) = true) :=
        fun hpk => hk (((hp k (List.mem_cons_self _ _)).mp hpk) ▸ hw')
      rw [if_neg (by simpa using hkne)]
      exact ih hw' hks (fun w' h => hp w' (List.mem_cons_of_mem _ h))

/-! ## Facts about `emitSupMonth` -/

theorem emitSupMonth_of_ne {latest g : Nat × Nat} {dts : List MRow} {r : RollupRow}
    (hne : g ≠ latest) (hr : r ∈ emitSupMonth latest g dts) :
    r.kind = BKind.monthSummary ∧ r.srcWeek = none := by
  rw [emitSupMonth, if_neg hne] at hr
  split at hr
  · rw [List.mem_singleton.mp hr]; exact ⟨rfl, rfl⟩
  · cases hr

theorem emitSupMonth_latest (latest : Nat × Nat) (dts : List MRow) :
    emitSupMonth latest latest dts
      = ((dts.filter fun r => ymOf r.date = latest).map
            fun r => ⟨BKind.daily, some latest, none, dailyCells supervisorColumns r⟩)
        ++ ((firstDedup ((dts.filter fun r => ymOf r.date = latest).map
              fun r => isoWeekKey r.date)).map
              fun w => weekRollup w (dts.filter fun r => isoWeekKey r.date = w))
        ++ [supMonthRollup latest (dts.filter fun r => ymOf r.date = latest)] := by
  rw [emitSupMonth, if_pos rfl]

theorem supMonthKeys_cons (rows : List SRow)
    (hv : (dailyTotalsOf rows).isEmpty = false) :
    supMonthKeysOf rows = latestSupYMOf rows :: (supMonthKeysOf rows).drop 1 := by
  rw [supMonthKeysOf, latestSupYMOf]
  cases h : dailyTotalsOf rows with
  | nil => rw [h] at hv; simp at hv
  | cons d ds =>
    rw [List.map_cons]
    rw [firstDedup, firstDedupAux, if_neg (List.not_mem_nil _)]
    rfl

/-! ## Claim theorems for the supervisor-team rollup builder -/

/-- C3.  Every ISO week having member days in the current month produces
exactly one `weekSummary` row, and that row's metric cells are the per-metric
aggregator (max for the gauge metrics, sum for the rest) applied over that
ISO week's slice of the *full* `daily_totals` range — so days of the week
falling in the adjacent prior month contribute even though they have no
daily row in the current month's listing. -/
theorem c3_week_summary (rows : List SRow) (w : Int × Int) (hw : w ∈ weekKeysOf rows) :
    (supTableRowsOf rows).filter (fun r => r.srcWeek = some w)
      = [weekRollup w ((dailyTotalsOf rows).filter fun r => isoWeekKey r.date = w)]
    ∧ (weekRollup w ((dailyTotalsOf rows).filter fun r => isoWeekKey r.date = w)).cells
      = weekLabel ((dailyTotalsOf rows).filter fun r => isoWeekKey r.date = w)
          :: (supervisorColumns.drop 1).map
              (fun c => format_number
                (supColAgg c ((dailyTotalsOf rows).filter fun r => isoWeekKey r.date = w))) := by
  refine ⟨?_, rfl⟩
  have hlm : latestSupYMOf rows ∈ supMonthKeysOf rows := by
    have hw' := mem_firstDedup.mp hw
    obtain ⟨r, hr, _⟩ := List.mem_map.mp hw'
    have hr2 := List.mem_filter.mp hr
    exact mem_firstDedup.mpr
      (List.mem_map.mpr ⟨r, hr2.1, of_decide_eq_true hr2.2⟩)
  rw [supTableRowsOf, List.filter_append]
  have htot : [supTotalRollup (dailyTotalsOf rows)].filter
      (fun r => decide (r.srcWeek = some w)) = [] := by
    simp [supTotalRollup]
  rw [htot, List.append_nil]
  rw [filter_flatten_single (supMonthKeysOf rows) _ _ (latestSupYMOf rows) hlm
      (nodup_firstDedup _)
      (fun g' _ hne r hr => by simp [(emitSupMonth_of_ne hne hr).2])]
  rw [emitSupMonth_latest, List.filter_append, List.filter_append]
  have hdaily : (((dailyTotalsOf rows).filter fun r => ymOf r.date = latestSupYMOf rows).map
      (fun r => (⟨BKind.daily, some (latestSupYMOf rows), none,
        dailyCells supervisorColumns r⟩ : RollupRow))).filter
        (fun r => decide (r.srcWeek = some w)) = [] := by
    rw [List.filter_eq_nil_iff]
    intro r hr
    obtain ⟨x, _, rfl⟩ := List.mem_map.mp hr
    simp
  have hmonth : [supMonthRollup (latestSupYMOf rows)
      ((dailyTotalsOf rows).filter fun r => ymOf r.date = latestSupYMOf rows)].filter
        (fun r => decide (r.srcWeek = some w)) = [] := by
    simp [supMonthRollup]
  rw [hdaily, hmonth, List.nil_append, List.append_nil]
  exact filter_map_eq_single _ _ _ w hw (nodup_firstDedup _)
    (fun w' _ => by simp [weekRollup])

/-- C4 counterexample.  `twoWeekRows` has two ISO weeks inside the current
month June 2024: week `(2024, 26)` with member days 2024-06-25 and
2024-06-24, and week `(2024, 25)` with member day 2024-06-17.  The claim
requires week 26's summary row immediately after the daily row of its last
member day — interleaved before 06-17's daily row (whichever member day of
week 26 is taken as last, its daily row is at index 0 or 1, so the summary
would sit at index 1 or 2 at the latest, before the 06-17 daily row).  The
builder instead emits all three daily rows first and both week summaries
only after them, at indices 3 and 4. -/
theorem c4_counterexample :
    ((supTableRowsOf twoWeekRows).map fun r => r.kind)
        = [BKind.daily, BKind.daily, BKind.daily, BKind.weekSummary,
           BKind.weekSummary, BKind.monthSummary, BKind.total]
    ∧ ((supTableRowsOf twoWeekRows).map fun r => r.cells.head?)
        = [some "2024-06-25", some "2024-06-24", some "2024-06-17",
           some "06/24~06/25", some "06/17~06/17", some "2024/06", some "TOTAL"]
    ∧ ((supTableRowsOf twoWeekRows).map fun r => r.srcWeek)
        = [none, none, none, some (2024, 26), some (2024, 25), none, none]
    ∧ weekKeysOf twoWeekRows = [(2024, 26), (2024, 25)]
    ∧ isoWeekKey ⟨2024, 6, 25⟩ = (2024, 26)
    ∧ isoWeekKey ⟨2024, 6, 24⟩ = (2024, 26)
    ∧ isoWeekKey ⟨2024, 6, 17⟩ = (2024, 25) := by
  exact ⟨by decide, by decide, by decide, by decide, by decide, by decide, by decide⟩

/-- C4 as amended.  The week summaries of the current month are emitted as a
block after *all* of the current month's daily rows (and before the current
month's summary row), one `weekSummary` row per ISO week encountered, in the
order each week's first day was emitted — not interleaved immediately after
each week's last member day. -/
theorem c4_week_block (rows : List SRow)
    (hv : (dailyTotalsOf rows).isEmpty = false) :
    supTableRowsOf rows
      = ((latestMonthDataOf rows).map
            fun r => ⟨BKind.daily, some (latestSupYMOf rows), none,
              dailyCells supervisorColumns r⟩)
        ++ ((weekKeysOf rows).map
              fun w => weekRollup w ((dailyTotalsOf rows).filter fun r => isoWeekKey r.date = w))
        ++ [supMonthRollup (latestSupYMOf rows) (latestMonthDataOf rows)]
        ++ (((supMonthKeysOf rows).drop 1).map
              fun g => emitSupMonth (latestSupYMOf rows) g (dailyTotalsOf rows)).flatten
        ++ [supTotalRollup (dailyTotalsOf rows)]
    ∧ ((supTableRowsOf rows).filter fun r => r.kind = BKind.weekSummary).map
        (fun r => r.srcWeek)
      = (weekKeysOf rows).map some := by
  have hkeys := supMonthKeys_cons rows hv
  have hmain : supTableRowsOf rows
      = ((latestMonthDataOf rows).map
            fun r => ⟨BKind.daily, some (latestSupYMOf rows), none,
              dailyCells supervisorColumns r⟩)
        ++ ((weekKeysOf rows).map
              fun w => weekRollup w ((dailyTotalsOf rows).filter fun r => isoWeekKey r.date = w))
        ++ [supMonthRollup (latestSupYMOf rows) (latestMonthDataOf rows)]
        ++ (((supMonthKeysOf rows).drop 1).map
              fun g => emitSupMonth (latestSupYMOf rows) g (dailyTotalsOf rows)).flatten
        ++ [supTotalRollup (dailyTotalsOf rows)] := by
    rw [supTableRowsOf]
    conv_lhs => rw [hkeys]
    rw [List.map_cons, List.flatten_cons, emitSupMonth_latest]
    simp only [List.append_assoc]
    rfl
  refine ⟨hmain, ?_⟩
  have hlatest_notin : latestSupYMOf rows ∉ (supMonthKeysOf rows).drop 1 := by
    have hnd := nodup_firstDedup ((dailyTotalsOf rows).map fun r => ymOf r.date)
    rw [show firstDedup ((dailyTotalsOf rows).map fun r => ymOf r.date)
        = supMonthKeysOf rows from rfl, hkeys] at hnd
    exact (List.nodup_cons.mp hnd).1
  rw [hmain]
  rw [List.filter_append, List.filter_append, List.filter_append, List.filter_append]
  have h1 : ((latestMonthDataOf rows).map
      (fun r => (⟨BKind.daily, some (latestSupYMOf rows), none,
        dailyCells supervisorColumns r⟩ : RollupRow))).filter
        (fun r => decide (r.kind = BKind.weekSummary)) = [] := by
    rw [List.filter_eq_nil_iff]
    intro r hr
    obtain ⟨x, _, rfl⟩ := List.mem_map.mp hr
    simp
  have h2 : (((weekKeysOf rows).map
      fun w => weekRollup w ((dailyTotalsOf rows).filter fun r => isoWeekKey r.date = w))).filter
        (fun r => decide (r.kind = BKind.weekSummary))
      = (weekKeysOf rows).map
          fun w => weekRollup w ((dailyTotalsOf rows).filter fun r => isoWeekKey r.date = w) := by
    rw [List.filter_eq_self]
    intro r hr
    obtain ⟨x, _, rfl⟩ := List.mem_map.mp hr
    simp [weekRollup]
  have h3 : [supMonthRollup (latestSupYMOf rows) (latestMonthDataOf rows)].filter
      (fun r => decide (r.kind = BKind.weekSummary)) = [] := by
    simp [supMonthRollup]
  have h4 : ((((supMonthKeysOf rows).drop 1).map
      fun g => emitSupMonth (latestSupYMOf rows) g (dailyTotalsOf rows)).flatten).filter
        (fun r => decide (r.kind = BKind.weekSummary)) = [] := by
    rw [List.filter_eq_nil_iff]
    intro r hr
    obtain ⟨blk, hblk, hrb⟩ := List.mem_flatten.mp hr
    obtain ⟨g', hg', rfl⟩ := List.mem_map.mp hblk
    have hne : g' ≠ latestSupYMOf rows := fun he => hlatest_notin (he ▸ hg')
    simp [(emitSupMonth_of_ne hne hrb).1]
  have h5 : [supTotalRollup (dailyTotalsOf rows)].filter
      (fun r => decide (r.kind = BKind.weekSummary)) = [] := by
    simp [supTotalRollup]
  rw [h1, h2, h3, h4, h5, List.nil_append, List.append_nil, List.append_nil,
    List.append_nil, List.map_map]
  rfl

/-! ## Claim theorems for the dimension key builder and the comparator -/

/-- C5.  Evaluation of the dimension key builder at the spec's inputs: the
`.str.strip()` of line 104 runs *before* the anchored regex removals of
lines 105-106, so a two-level key with one empty level keeps a dangling
separator fragment (`"Alice -"`, `"- Bob"`) instead of degenerating to the
single non-empty level as the spec requires; only the both-levels-nonempty
case matches the spec. -/
theorem c5_dimension_key_eval :
    buildDimension "Alice" "" = "Alice -"
    ∧ buildDimension "" "Bob" = "- Bob"
    ∧ buildDimension "Alice" "Bob" = "Alice - Bob"
    ∧ buildDimension "Alice" "" ≠ "Alice"
    ∧ buildDimension "" "Bob" ≠ "Bob" := by
  refine ⟨?_, ?_, ?_, ?_, ?_⟩ <;> with_unfolding_all decide

/-- C6.  The comparator's percentage change: when the previous value is
absent (`NaN`) or zero, the output is `"+100%"` for positive current and
`"0%"` otherwise; when the previous value is nonzero the output is
`(current − previous) / |previous| × 100` formatted to one decimal with a
sign prefix, and exactly `"0%"` when current equals previous — including the
spec's four concrete examples. -/
theorem c6_change_rate :
    format_change_rate 100 (some 0) = "+100%"
    ∧ format_change_rate 0 (some 0) = "0%"
    ∧ format_change_rate 50 (some 100) = "-50.0%"
    ∧ format_change_rate 150 (some 100) = "+50.0%"
    ∧ (∀ c : ℚ, format_change_rate c none = if 0 < c then "+100%" else "0%")
    ∧ (∀ c : ℚ, format_change_rate c (some 0) = if 0 < c then "+100%" else "0%")
    ∧ (∀ c p : ℚ, p ≠ 0 → c = p → format_change_rate c (some p) = "0%")
    ∧ (∀ c p : ℚ, p ≠ 0 → p < c →
        format_change_rate c (some p)
          = "+" ++ fmtOneDecimal ((c - p) / |p| * 100) ++ "%")
    ∧ (∀ c p : ℚ, p ≠ 0 → c < p →
        format_change_rate c (some p)
          = fmtOneDecimal ((c - p) / |p| * 100) ++ "%") := by
  refine ⟨?_, ?_, ?_, ?_, fun c => rfl, fun c => ?_, ?_, ?_, ?_⟩
  · with_unfolding_all decide
  · with_unfolding_all decide
  · with_unfolding_all decide
  · with_unfolding_all decide
  · rw [format_change_rate]
    rw [if_pos rfl]
  · intro c p hp hcp
    subst hcp
    rw [format_change_rate, if_neg hp]
    simp only [sub_self, zero_div, zero_mul, lt_irrefl, if_false]
  · intro c p hp hlt
    have h1 : 0 < (c - p) / |p| * 100 :=
      mul_pos (div_pos (sub_pos.mpr hlt) (abs_pos.mpr hp)) (by norm_num)
    rw [format_change_rate, if_neg hp]
    simp only [if_pos h1]
  · intro c p hp hlt
    have h1 : (c - p) / |p| * 100 < 0 :=
      mul_neg_of_neg_of_pos (div_neg_of_neg_of_pos (sub_neg.mpr hlt) (abs_pos.mpr hp))
        (by norm_num)
    rw [format_change_rate, if_neg hp]
    rw [if_neg (not_lt.mpr h1.le), if_pos h1]

/-- Witness for C6: the nonzero-previous, increasing case at
`current = 150`, `previous = 100`. -/
theorem c6_change_rate_witness :
    (100 : ℚ) ≠ 0 ∧ (100 : ℚ) < 150
    ∧ format_change_rate 150 (some 100)
        = "+" ++ fmtOneDecimal ((150 - 100) / |(100 : ℚ)| * 100) ++ "%" :=
  ⟨by decide, by decide,
    c6_change_rate.2.2.2.2.2.2.2.1 150 100 (by decide) (by decide)⟩

/-- C7 counterexample.  A metric name absent from the row's index does not
fail fast: the guarded lookup of lines 813-830 silently substitutes zero and
the comparison cell is rendered as `"0 (0%)"`; likewise line 235 silently
drops display columns missing from the frame instead of erroring. -/
theorem c7_missing_metric_silent_zero :
    safeMetricValue ["Reg"] (fun _ => some 3) "EFTTC" = 0
    ∧ comparisonCell ["Reg"] (fun _ => some 3) (some fun _ => some 3) "EFTTC" = "0 (0%)"
    ∧ availColsOf ⟨["Date", "Reg"], []⟩ = ["Date", "Reg"] := by
  refine ⟨?_, ?_, ?_⟩ <;> with_unfolding_all decide

/-- C7 as amended.  A metric name missing from the row's index — or a NaN
value — is silently coerced to zero by the comparison-report lookup; no
error is surfaced to the caller. -/
theorem c7_missing_metric_amended (idx : List String) (row : String → Option ℚ)
    (m : String) (h : m ∉ idx ∨ row m = none) :
    safeMetricValue idx row m = 0 := by
  rw [safeMetricValue]
  rcases h with h | h
  · rw [if_neg h]
  · by_cases hm : m ∈ idx
    · rw [if_pos hm, h]
    · rw [if_neg hm]

/-- Witness for the amended C7 at a concrete missing metric. -/
theorem c7_missing_metric_amended_witness :
    ("EFTTC" ∉ ["Reg"] ∨ (fun _ => some (3 : ℚ)) "EFTTC" = none)
    ∧ safeMetricValue ["Reg"] (fun _ => some (3 : ℚ)) "EFTTC" = 0 :=
  ⟨Or.inl (by decide),
    c7_missing_metric_amended ["Reg"] (fun _ => some (3 : ℚ)) "EFTTC" (Or.inl (by decide))⟩

/-! ## Claim theorems for raw-data processing (in-place mutation) -/

/-- The sequential per-column in-place rewrites of a duplicate-free column
list amount to one pointwise pass: each listed column's cell is coerced from
the original cell, everything else is untouched. -/
theorem foldl_updateNumericCol (L : List String) :
    ∀ f : RawFrame, L.Nodup →
      (L.foldl updateNumericCol f).cols = f.cols
      ∧ (L.foldl updateNumericCol f).rows
          = f.rows.map fun row => fun c =>
              if c ∈ L then PCell.num (coerceNum (cleanNumStr (pcellStr (row c))))
              else row c := by
  induction L with
  | nil =>
    intro f _
    refine ⟨rfl, ?_⟩
    simp
  | cons c₀ L ih =>
    intro f hnd
    obtain ⟨hc₀, hL⟩ := List.nodup_cons.mp hnd
    rw [List.foldl_cons]
    obtain ⟨ih1, ih2⟩ := ih (updateNumericCol f c₀) hL
    refine ⟨ih1, ?_⟩
    rw [ih2, updateNumericCol, List.map_map]
    refine List.map_congr_left fun row _ => funext fun c => ?_
    simp only [Function.comp]
    by_cases hcL : c ∈ L
    · have hcc₀ : c ≠ c₀ := fun he => hc₀ (he ▸ hcL)
      rw [if_pos hcL, if_pos (List.mem_cons_of_mem _ hcL), if_neg hcc₀]
    · by_cases hcc₀ : c = c₀
      · subst hcc₀
        rw [if_neg hcL, if_pos rfl, if_pos (List.mem_cons_self _ _)]
      · rw [if_neg hcL, if_neg hcc₀,
          if_neg (fun h => (List.mem_cons.mp h).elim hcc₀ hcL)]

set_option maxRecDepth 8192 in
/-- C8 as amended.  `process_raw_data` is *not* pure in its input: after the
call the caller's frame has every present numeric column coerced in place
(comma-stripped, `nan`-zeroed, non-numeric text coerced to zero), exactly
the one-shot pointwise cleaning; columns outside the numeric list — and the
column list itself — are untouched.  The later dimension-tagging and
filtering steps act on a fresh frame and are invisible to the caller. -/
theorem c8_inplace_mutation_amended (f : RawFrame) :
    (process_raw_data f).2.cols = f.cols
    ∧ (process_raw_data f).2.rows = f.rows.map (pointwiseClean f.cols) := by
  have hnodup : numeric_columns.Nodup := by decide
  have hnd : (numeric_columns.filter (· ∈ f.cols)).Nodup := hnodup.filter _
  obtain ⟨h1, h2⟩ := foldl_updateNumericCol (numeric_columns.filter (· ∈ f.cols)) f hnd
  refine ⟨h1, ?_⟩
  rw [show (process_raw_data f).2 = numericClean f from rfl, numericClean, h2]
  refine List.map_congr_left fun row _ => funext fun c => ?_
  rw [pointwiseClean]
  by_cases hc : c ∈ numeric_columns ∧ c ∈ f.cols
  · rw [if_pos (List.mem_filter.mpr ⟨hc.1, by simpa using hc.2⟩), if_pos hc]
  · rw [if_neg (fun h => hc (by
      obtain ⟨h1', h2'⟩ := List.mem_filter.mp h
      exact ⟨h1', by simpa using h2'⟩)), if_neg hc]

/-- Witness for the amended C8 at the sample frame. -/
theorem c8_inplace_mutation_amended_witness :
    (process_raw_data sampleRawFrame).2.cols = sampleRawFrame.cols
    ∧ (process_raw_data sampleRawFrame).2.rows
        = sampleRawFrame.rows.map (pointwiseClean sampleRawFrame.cols) :=
  c8_inplace_mutation_amended sampleRawFrame

set_option maxRecDepth 40000 in
/-- C8 counterexample.  The raw-data stage is not pure with respect to its
input: calling `process_raw_data` on `sampleRawFrame` leaves the caller's
frame with its `注册用户` cell overwritten in place (the text `"1,000"`
becomes the number `1000`), so the frame after the call differs from the
frame passed in. -/
theorem c8_mutates_input :
    ((process_raw_data sampleRawFrame).2.rows.map fun row => row "注册用户")
        = [PCell.num 1000]
    ∧ (sampleRawFrame.rows.map fun row => row "注册用户") = [PCell.str "1,000"]
    ∧ (process_raw_data sampleRawFrame).2 ≠ sampleRawFrame := by
  refine ⟨by with_unfolding_all decide, by decide, fun h => ?_⟩
  have h1 := congrArg (fun fr : RawFrame => fr.rows.map fun row => row "注册用户") h
  exact absurd h1 (by with_unfolding_all decide)

/-! ## Claim theorems for the aggregator -/

theorem keyLe_total : ∀ a b : String × String, keyLe a b ∨ keyLe b a := by
  intro a b
  rcases lt_trichotomy a.1 b.1 with h | h | h
  · exact Or.inl (Or.inl h)
  · rcases le_total a.2 b.2 with h2 | h2
    · exact Or.inl (Or.inr ⟨h, h2⟩)
    · exact Or.inr (Or.inr ⟨h.symm, h2⟩)
  · exact Or.inr (Or.inl h)

theorem keyLe_trans : ∀ a b c : String × String, keyLe a b → keyLe b c → keyLe a c := by
  intro a b c hab hbc
  rcases hab with h | ⟨he, h2⟩
  · rcases hbc with h' | ⟨he', _⟩
    · exact Or.inl (h.trans h')
    · exact Or.inl (he' ▸ h)
  · rcases hbc with h' | ⟨he', h2'⟩
    · exact Or.inl (he ▸ h')
    · exact Or.inr ⟨he.trans he', h2.trans h2'⟩

theorem keyLe_antisymm : ∀ a b : String × String, keyLe a b → keyLe b a → a = b := by
  intro a b hab hba
  rcases hab with h | ⟨he, h2⟩
  · rcases hba with h' | ⟨he', _⟩
    · exact absurd (h.trans h') (lt_irrefl _)
    · exact absurd h (he' ▸ lt_irrefl _)
  · rcases hba with h' | ⟨he', h2'⟩
    · exact absurd (he ▸ h' : a.1 < a.1) (lt_irrefl _)
    · exact Prod.ext he (le_antisymm h2 h2')

instance : IsTotal (String × String) keyLe := ⟨keyLe_total⟩

instance : IsTrans (String × String) keyLe := ⟨keyLe_trans⟩

instance : IsAntisymm (String × String) keyLe := ⟨keyLe_antisymm⟩

/-- One aggregated row only depends on the multiset of records. -/
theorem mkAggRow_perm {l₁ l₂ : List RawRec} (h : l₁.Perm l₂) (k : String × String) :
    mkAggRow l₁ k = mkAggRow l₂ k := by
  have hg : (groupOf l₁ k).Perm (groupOf l₂ k) := h.filter _
  have hsum : ∀ src, sumMetric (groupOf l₁ k) src = sumMetric (groupOf l₂ k) src :=
    fun src => (hg.map _).sum_eq
  have hag : ((groupOf l₁ k).map fun r => r.agent).dedup.length
      = ((groupOf l₂ k).map fun r => r.agent).dedup.length :=
    ((hg.map _).dedup).length_eq
  rw [mkAggRow, mkAggRow]
  simp only [hsum, hag]

/-- The sorted key list only depends on the multiset of records. -/
theorem aggKeysOf_perm {l₁ l₂ : List RawRec} (h : l₁.Perm l₂) :
    aggKeysOf l₁ = aggKeysOf l₂ := by
  have hperm : ((l₁.map aggKey).dedup).Perm ((l₂.map aggKey).dedup) := (h.map _).dedup
  exact List.eq_of_perm_of_sorted
    ((List.perm_insertionSort _ _).trans (hperm.trans (List.perm_insertionSort _ _).symm))
    (List.sorted_insertionSort keyLe _) (List.sorted_insertionSort keyLe _)

/-- C10.  The aggregator's output rows are sorted in ascending lexicographic
order of the grouping key (dimension, then date string), and the whole
output sequence is invariant under permutation of the input records. -/
theorem c10_aggregate_sorted_perm (l₁ l₂ : List RawRec) (hperm : l₁.Perm l₂) :
    aggregate_data l₁ = aggregate_data l₂
    ∧ List.Sorted keyLe ((aggregate_data l₁).map fun r => (r.dimension, r.date)) := by
  constructor
  · rw [aggregate_data, aggregate_data, aggKeysOf_perm hperm]
    exact List.map_congr_left fun k _ => mkAggRow_perm hperm k
  · rw [aggregate_data, List.map_map]
    have hcomp : ((fun r : AggOut => (r.dimension, r.date)) ∘ mkAggRow l₁) = id := by
      funext k; rfl
    rw [hcomp, List.map_id]
    exact List.sorted_insertionSort keyLe _

/-- Witness for C10: swapping two concrete records leaves the output
unchanged and sorted. -/
theorem c10_aggregate_sorted_perm_witness :
    ([sampleRec1, sampleRec2].Perm [sampleRec2, sampleRec1])
    ∧ (aggregate_data [sampleRec1, sampleRec2] = aggregate_data [sampleRec2, sampleRec1]
       ∧ List.Sorted keyLe
          ((aggregate_data [sampleRec1, sampleRec2]).map fun r => (r.dimension, r.date))) :=
  ⟨List.Perm.swap sampleRec2 sampleRec1 [],
    c10_aggregate_sorted_perm [sampleRec1, sampleRec2] [sampleRec2, sampleRec1]
      (List.Perm.swap sampleRec2 sampleRec1 [])⟩

/-! ## Remaining witnesses -/

/-- Witness for C1 at the sample frame: `(2024, 5)` is a non-current,
incomplete month group (one lone day), so it contributes no output row. -/
theorem c1_noncurrent_month_rollup_witness :
    (2024, 5) ∈ monthKeysOf sampleFrame
    ∧ (2024, 5) ≠ latestYMOf sampleFrame
    ∧ ((tableRowsOf sampleFrame).filter (fun r => r.srcMonth = some (2024, 5))
        = (if is_month_complete
              ((sortedRowsOf sampleFrame).filter fun r => ymOf r.date = (2024, 5)) 2024 5
           then [monthRollup (availColsOf sampleFrame) (2024, 5)
                  ((sortedRowsOf sampleFrame).filter fun r => ymOf r.date = (2024, 5))]
           else [])
       ∧ ((tableRowsOf sampleFrame).filter (fun r => r.srcMonth = some (2024, 5))).map
            (fun r => r.kind)
          = (if is_month_complete
                ((sortedRowsOf sampleFrame).filter fun r => ymOf r.date = (2024, 5)) 2024 5
             then [BKind.monthSummary] else [])) :=
  ⟨by decide, by decide,
    c1_noncurrent_month_rollup sampleFrame (2024, 5) (by decide) (by decide)⟩

/-- Witness for C2 at the sample frame. -/
theorem c2_total_row_witness :
    (validRowsOf sampleFrame).isEmpty = false
    ∧ (create_table_data sampleFrame = some (tableRowsOf sampleFrame)
       ∧ (tableRowsOf sampleFrame).getLast?
          = some (totalRollup (availColsOf sampleFrame) (sortedRowsOf sampleFrame))
       ∧ ((tableRowsOf sampleFrame).filter fun r => r.kind = BKind.total).length = 1
       ∧ (totalRollup (availColsOf sampleFrame) (sortedRowsOf sampleFrame)).cells
          = "TOTAL" :: ((availColsOf sampleFrame).drop 1).map
              (fun c => format_number (registryAggregator c (validRowsOf sampleFrame)))) :=
  ⟨by decide, c2_total_row sampleFrame (by decide)⟩

/-- Witness for C3 at the straddling sample: ISO week `(2024, 22)` has its
member days 2024-06-01 and 2024-06-02 in the current month June 2024, and
its summary row aggregates 2024-05-31 as well. -/
theorem c3_week_summary_witness :
    (2024, 22) ∈ weekKeysOf straddleRows
    ∧ ((supTableRowsOf straddleRows).filter (fun r => r.srcWeek = some (2024, 22))
        = [weekRollup (2024, 22)
            ((dailyTotalsOf straddleRows).filter fun r => isoWeekKey r.date = (2024, 22))]
       ∧ (weekRollup (2024, 22)
            ((dailyTotalsOf straddleRows).filter fun r => isoWeekKey r.date = (2024, 22))).cells
          = weekLabel ((dailyTotalsOf straddleRows).filter
                fun r => isoWeekKey r.date = (2024, 22))
              :: (supervisorColumns.drop 1).map
                  (fun c => format_number
                    (supColAgg c ((dailyTotalsOf straddleRows).filter
                      fun r => isoWeekKey r.date = (2024, 22))))) :=
  ⟨by decide, c3_week_summary straddleRows (2024, 22) (by decide)⟩

/-- Witness for the amended C4 at the two-day sample. -/
theorem c4_week_block_witness :
    (dailyTotalsOf twoDayRows).isEmpty = false
    ∧ (supTableRowsOf twoDayRows
        = ((latestMonthDataOf twoDayRows).map
              fun r => ⟨BKind.daily, some (latestSupYMOf twoDayRows), none,
                dailyCells supervisorColumns r⟩)
          ++ ((weekKeysOf twoDayRows).map
                fun w => weekRollup w
                  ((dailyTotalsOf twoDayRows).filter fun r => isoWeekKey r.date = w))
          ++ [supMonthRollup (latestSupYMOf twoDayRows) (latestMonthDataOf twoDayRows)]
          ++ (((supMonthKeysOf twoDayRows).drop 1).map
                fun g => emitSupMonth (latestSupYMOf twoDayRows) g (dailyTotalsOf twoDayRows)).flatten
          ++ [supTotalRollup (dailyTotalsOf twoDayRows)]
       ∧ ((supTableRowsOf twoDayRows).filter fun r => r.kind = BKind.weekSummary).map
            (fun r => r.srcWeek)
          = (weekKeysOf twoDayRows).map some) :=
  ⟨by decide, c4_week_block twoDayRows (by decide)⟩

/-- Witness for C9 at the sample month group. -/
theorem c9_completeness_equiv_witness :
    (∀ r ∈ sampleMonthGroup, r.date.year = 2024 ∧ r.date.month = 6
        ∧ 1 ≤ r.date.day ∧ r.date.day ≤ daysInMonth 2024 6)
    ∧ (uniqueDays sampleMonthGroup ≤ daysInMonth 2024 6
       ∧ (is_month_complete sampleMonthGroup 2024 6 = true ↔
           ∀ d, 1 ≤ d → d ≤ daysInMonth 2024 6 → ∃ r ∈ sampleMonthGroup, r.date.day = d)) :=
  ⟨by decide, c9_completeness_equiv sampleMonthGroup 2024 6 (by decide)⟩

end DataAlert
